import Mathlib

/-!
Verification of the dial-rotation simulator (day1) and the iterative grid
reducer (day4) of the adv2025 repository, as a shallow embedding in Lean.

Go machine integers are 64-bit values that wrap on overflow.  They are
modelled as Int, with every addition or subtraction whose operands are not
a priori bounded passed through wrap64, which reduces the result to the
signed 64-bit value Go computes.  Additions whose result provably fits
(a remainder in (-100, 100) plus 100, or 1 plus a quotient by 100 of a
64-bit value) are written plainly, since wrapping there is unreachable for
all inputs.  Go integer division and remainder truncate toward zero, so
they are embedded as Int.tdiv and Int.tmod; division by 100 never
overflows.
-/

namespace Adv2025

/-! ### Day 1 data model (source: day1 Position / Direction / Rotation) -/

/-- Direction of a dial rotation.  In the Go source, Direction is a rune type
with exactly the two declared constants Left = L and Right = R; the two
constructors enumerate those constants. -/
inductive Direction where
  | left
  | right
deriving DecidableEq, Repr

/-- Normalize ensures the position is in the range 0 to 99.  Source:
Position.Normalize, which computes the Go remainder (truncated toward zero,
hence Int.tmod) and corrects a negative result by adding 100. -/
def Normalize (p : Int) : Int :=
  let pos := Int.tmod p 100
  if pos < 0 then pos + 100 else pos

/-- IsZero checks whether a position is 0.  Source: Position.IsZero. -/
def IsZero (p : Int) : Bool :=
  p == 0

/-- wrap64 reduces an integer to the signed 64-bit value that Go two's
complement arithmetic produces: the representative of its class modulo 2^64
lying in the interval from -2^63 to 2^63 - 1. -/
def wrap64 (x : Int) : Int :=
  (x + 2 ^ 63) % 2 ^ 64 - 2 ^ 63

/-- Rotation is a direction together with a distance.  Source: the Rotation
struct with fields Direction and Distance. -/
structure Rotation where
  direction : Direction
  distance : Int
deriving DecidableEq, Repr

/-- Apply applies the rotation to a position.  Source: Rotation.Apply, which
subtracts the distance for a left rotation and adds it for a right rotation,
with the 64-bit sum or difference wrapping on overflow, and normalizes the
result in both cases. -/
def Rotation.Apply (r : Rotation) (p : Int) : Int :=
  match r.direction with
  | .left => Normalize (wrap64 (p - r.distance))
  | .right => Normalize (wrap64 (p + r.distance))

/-- CountZeroCrossings counts how many times this rotation crosses position 0
when started at the given position.  Source: Rotation.CountZeroCrossings.
Go division truncates toward zero, hence Int.tdiv; the 64-bit sum and
difference of position and distance wrap on overflow, while 1 plus a
quotient by 100 of a 64-bit value cannot overflow and is written plainly. -/
def Rotation.CountZeroCrossings (r : Rotation) (p : Int) : Int :=
  match r.direction with
  | .left =>
    if IsZero p then
      Int.tdiv r.distance 100
    else if r.distance ≥ p then
      1 + Int.tdiv (wrap64 (r.distance - p)) 100
    else
      0
  | .right => Int.tdiv (wrap64 (p + r.distance)) 100

/-- Counter is the counting strategy.  In the Go source this is an interface
with exactly two implementations, EndPositionCounter and ZeroCrossingCounter;
the constructors enumerate them. -/
inductive Counter where
  | endPosition
  | zeroCrossing
deriving DecidableEq, Repr

/-- Count gives the contribution of one rotation at the pre-rotation position.
Source: EndPositionCounter.Count and ZeroCrossingCounter.Count. -/
def Counter.Count (c : Counter) (r : Rotation) (p : Int) : Int :=
  match c with
  | .endPosition => if IsZero (r.Apply p) then 1 else 0
  | .zeroCrossing => r.CountZeroCrossings p

/-- Dial is the mutable dial state: its position and the running count.  The
counter strategy, fixed once at construction in the Go source, is passed as a
parameter to the operations instead of stored. -/
structure Dial where
  position : Int
  count : Int
deriving DecidableEq, Repr

/-- NewDial creates a dial at position 50 with count 0.  Source: NewDial. -/
def NewDial : Dial :=
  { position := 50, count := 0 }

/-- Rotate adds the strategy contribution at the current (pre-rotation)
position to the count (a wrapping 64-bit addition), then moves the
position.  Source: Dial.Rotate. -/
def Dial.Rotate (c : Counter) (d : Dial) (r : Rotation) : Dial :=
  { position := r.Apply d.position,
    count := wrap64 (d.count + c.Count r d.position) }

/-! ### Day 1 input parsing (source: ParseRotation and RotationParser.Parse) -/

/-- isSpaceChar matches the whitespace characters stripped by TrimSpace on the
ASCII inputs this program consumes. -/
def isSpaceChar (c : Char) : Bool :=
  c == ' ' || c == '\t' || c == '\n' || c == '\x0b' || c == '\x0c' || c == '\r'

/-- trimSpace removes leading and trailing whitespace, as TrimSpace does. -/
def trimSpace (l : List Char) : List Char :=
  ((l.dropWhile isSpaceChar).reverse.dropWhile isSpaceChar).reverse

/-- digitsToNat reads a digit string as a natural number, most significant
digit first. -/
def digitsToNat (l : List Char) : Nat :=
  l.foldl (fun n c => 10 * n + (c.toNat - '0'.toNat)) 0

/-- parseDigits accepts a nonempty all-digit string and yields its value. -/
def parseDigits (l : List Char) : Option Nat :=
  if l ≠ [] ∧ l.all Char.isDigit then some (digitsToNat l) else none

/-- atoi models strconv.Atoi on a 64-bit platform: an optional leading sign
followed by one or more decimal digits, with the value required to fit in a
signed 64-bit integer; anything else is an error. -/
def atoi (l : List Char) : Option Int :=
  if l.head? = some '-' then
    match parseDigits (l.drop 1) with
    | some n => if n ≤ 2 ^ 63 then some (-(n : Int)) else none
    | none => none
  else if l.head? = some '+' then
    match parseDigits (l.drop 1) with
    | some n => if n < 2 ^ 63 then some (n : Int) else none
    | none => none
  else
    match parseDigits l with
    | some n => if n < 2 ^ 63 then some (n : Int) else none
    | none => none

/-- ParseRotation parses one rotation line such as L68 or R48.  Source:
ParseRotation: trim the line, reject a result shorter than two characters,
require the first character to be the L or R direction constant, and parse
the remainder with Atoi. -/
def ParseRotation (s : List Char) : Option Rotation :=
  let t := trimSpace s
  if t.length < 2 then none
  else if t.head? = some 'L' then
    (atoi (t.drop 1)).map (fun d => { direction := .left, distance := d })
  else if t.head? = some 'R' then
    (atoi (t.drop 1)).map (fun d => { direction := .right, distance := d })
  else none

/-- ParseAllLines processes the lines of a file starting at the given 1-based
line number, skipping exactly-empty lines, and aborts at the first line that
fails to parse, reporting its line number.  Source: RotationParser.Parse with
the accumulating handler of ParseAll. -/
def ParseAllLines : List (List Char) → Nat → Except Nat (List Rotation)
  | [], _ => .ok []
  | l :: ls, lineNum =>
    if l = [] then ParseAllLines ls (lineNum + 1)
    else
      match ParseRotation l with
      | none => .error lineNum
      | some r =>
        match ParseAllLines ls (lineNum + 1) with
        | .ok rs => .ok (r :: rs)
        | .error e => .error e

/-- ParseAll parses a whole file, numbering lines from 1. -/
def ParseAll (lines : List (List Char)) : Except Nat (List Rotation) :=
  ParseAllLines lines 1

/-- intToken is the spec-side grammar of the numeric part, amended minimally
to what Atoi accepts: a nonempty decimal numeral, or a sign followed by a
nonempty decimal numeral, with the value fitting in a signed 64-bit
integer. -/
def intToken (l : List Char) : Bool :=
  (!l.isEmpty && l.all Char.isDigit && digitsToNat l < 2 ^ 63) ||
  (l.head? == some '-' && !(l.drop 1).isEmpty && (l.drop 1).all Char.isDigit &&
    digitsToNat (l.drop 1) ≤ 2 ^ 63) ||
  (l.head? == some '+' && !(l.drop 1).isEmpty && (l.drop 1).all Char.isDigit &&
    digitsToNat (l.drop 1) < 2 ^ 63)

/-- matchesRotationToken is the token grammar of the specification, amended
minimally to what the code accepts: a direction character L or R followed by
an optionally signed integer numeral. -/
def matchesRotationToken (l : List Char) : Bool :=
  (l.head? == some 'L' || l.head? == some 'R') && intToken (l.drop 1)

/-! ### Day 1 alternate implementation (source: the lowercase dial file) -/

/-- goMod returns a positive modulo result; the Go remainder can be negative.
Source: the mod helper of the alternate day1 implementation. -/
def goMod (n m : Int) : Int :=
  let result := Int.tmod n m
  if result < 0 then result + m else result

/-- dialRotate performs a rotation of the alternate dial and returns the new
position.  Source: dial.rotate; a direction byte other than L or R leaves the
position unchanged. -/
def dialRotate (position : Int) (direction : Char) (distance : Int) : Int :=
  if direction = 'L' then goMod (wrap64 (position - distance)) 100
  else if direction = 'R' then goMod (wrap64 (position + distance)) 100
  else position

/-- countPassesThroughZero counts how many times the alternate dial passes
through 0 during one rotation, with the same wrapping 64-bit sum and
difference as the other implementation.  Source:
dial.countPassesThroughZero. -/
def countPassesThroughZero (position : Int) (direction : Char) (distance : Int) : Int :=
  if direction = 'L' then
    if position = 0 then Int.tdiv distance 100
    else if distance ≥ position then 1 + Int.tdiv (wrap64 (distance - position)) 100
    else 0
  else if direction = 'R' then Int.tdiv (wrap64 (position + distance)) 100
  else 0

/-! ### Day 1 run models (source: Solver.Solve and Pipeline.Reduce) -/

/-- dialRunFrom applies every rotation in order to a dial via Rotate. -/
def dialRunFrom (c : Counter) (d : Dial) (rs : List Rotation) : Dial :=
  rs.foldl (Dial.Rotate c) d

/-- Solve is the streaming path: a fresh dial (position 50, count 0) handles
every parsed rotation in order via Rotate and the final count is read.
Source: Solver.Solve with NewDial. -/
def Solve (c : Counter) (rs : List Rotation) : Int :=
  (dialRunFrom c NewDial rs).count

/-- Reduce is the pipeline path: a position and a count local start at the
initial position and 0; for every rotation the count grows by the counter
contribution at the current position and the position is then advanced.
Source: Pipeline.Reduce. -/
def Reduce (rs : List Rotation) (initial : Int) (c : Counter) : Int :=
  (rs.foldl (fun s r => (r.Apply s.1, wrap64 (s.2 + c.Count r s.1)))
    (initial, (0 : Int))).2

/-! ### Day 4 grid model (source: day4 part1.go and part2.go) -/

/-- Grid is the day4 grid: a list of rows of cells, where a cell is the byte
at-sign (marker present) or dot (empty).  Rows may have different lengths. -/
abbrev Grid := List (List Char)

/-- rowAt reads a row, with an empty row standing for an out-of-range index. -/
def rowAt (g : Grid) (r : Nat) : List Char :=
  g.getD r []

/-- cellAt reads a cell, with the empty cell standing for an out-of-range
index. -/
def cellAt (g : Grid) (r c : Nat) : Char :=
  (rowAt g r).getD c '.'

/-- inB is the bounds guard of the neighbor loop: the row index is in range
and the column index is in range for that (possibly shorter) row.  Source:
the first four conjuncts of the neighbor check in isAccessible and
isAccessibleMutable. -/
def inB (g : Grid) (r c : Int) : Bool :=
  0 ≤ r && r < (g.length : Int) && 0 ≤ c && c < ((rowAt g r.toNat).length : Int)

/-- hasRoll is the full neighbor check: in bounds and the cell holds a
marker.  Source: the guarded grid read in isAccessible and
isAccessibleMutable. -/
def hasRoll (g : Grid) (r c : Int) : Bool :=
  inB g r c && (cellAt g r.toNat c.toNat == '@')

/-- directions lists the 8 neighbor offsets, in source order. -/
def directions : List (Int × Int) :=
  [(-1, -1), (-1, 0), (-1, 1), (0, -1), (0, 1), (1, -1), (1, 0), (1, 1)]

/-- adjacentCount accumulates, over the 8 directions, how many neighbors hold
a marker.  Source: the adjacentCount loop of isAccessible and
isAccessibleMutable, modelled as the length of the filtered direction list. -/
def adjacentCount (g : Grid) (row col : Int) : Nat :=
  (directions.filter (fun d => hasRoll g (row + d.1) (col + d.2))).length

/-- isAccessible returns true if the roll at (row, col) has fewer than 4
adjacent rolls.  Source: isAccessible in day4 part1.go (grid of strings). -/
def isAccessible (g : Grid) (row col : Int) : Bool :=
  adjacentCount g row col < 4

/-- isAccessibleMutable is the identical check of day4 part2.go on the
mutable byte grid. -/
def isAccessibleMutable (g : Grid) (row col : Int) : Bool :=
  adjacentCount g row col < 4

/-- setCell writes one cell of the grid; writes at out-of-range indices are
dropped (the program only writes in-bounds positions). -/
def setCell (g : Grid) (r c : Nat) (v : Char) : Grid :=
  g.set r ((rowAt g r).set c v)

/-- findAccessibleRolls scans the grid in row-major order and collects the
positions of all accessible rolls.  Source: findAccessibleRolls. -/
def findAccessibleRolls (g : Grid) : List (Nat × Nat) :=
  (List.range g.length).flatMap (fun row =>
    (List.range (rowAt g row).length).filterMap (fun col =>
      if cellAt g row col = '@' ∧ isAccessibleMutable g row col then
        some (row, col)
      else none))

/-- removeAll clears every listed position, in list order.  Source: the
removal loop of Part2 writing the empty cell at each accessible position. -/
def removeAll (g : Grid) (ps : List (Nat × Nat)) : Grid :=
  ps.foldl (fun acc p => setCell acc p.1 p.2 '.') g

/-- markerCount counts the markers in the grid. -/
def markerCount (g : Grid) : Nat :=
  (g.map (fun row => row.count '@')).sum

/-- passGrid performs one full pass: scan, then batch-clear the collected
positions. -/
def passGrid (g : Grid) : Grid :=
  removeAll g (findAccessibleRolls g)

/-- gridAfterPasses iterates passGrid; after the loop has stopped the
accessible set is empty and further passes change nothing. -/
def gridAfterPasses (g : Grid) : Nat → Grid
  | 0 => g
  | k + 1 => passGrid (gridAfterPasses g k)

/-- reduceLoopFuel is the removal loop of day4 Part2 with explicit fuel: per
iteration it collects the accessible rolls, stops when there are none, and
otherwise batch-clears them and continues, accumulating the number removed
and the number of executed passes alongside the final grid. -/
def reduceLoopFuel : Nat → Grid → Nat × Nat × Grid
  | 0, g => (0, 0, g)
  | fuel + 1, g =>
    let acc := findAccessibleRolls g
    if acc.isEmpty then (0, 0, g)
    else
      let res := reduceLoopFuel fuel (removeAll g acc)
      (acc.length + res.1, res.2.1 + 1, res.2.2)

/-- reduceLoop is the unbounded removal loop of Part2.  The fuel
markerCount g + 1 is sufficient because every executed pass strictly
decreases the marker count, which is proved below and makes the fuel value
irrelevant. -/
def reduceLoop (g : Grid) : Nat × Nat × Grid :=
  reduceLoopFuel (markerCount g + 1) g

end Adv2025

namespace Adv2025

/-! ### Helper lemmas about truncated division and remainder -/

/-- Truncated remainder is antisymmetric in its first argument. -/
theorem tmod_neg_left (x : Int) : Int.tmod (-x) 100 = -Int.tmod x 100 := by
  rw [Int.tmod_def, Int.tmod_def, Int.neg_tdiv]
  ring

/-- Truncated remainder by 100 equals the Euclidean remainder, possibly
shifted down by 100. -/
theorem tmod_cases (x : Int) :
    Int.tmod x 100 = x % 100 ∨ Int.tmod x 100 = x % 100 - 100 := by
  rcases le_or_lt 0 x with h | h
  · left
    exact Int.tmod_eq_emod h (by norm_num)
  · have h2 : Int.tmod (-x) 100 = (-x) % 100 :=
      Int.tmod_eq_emod (by omega) (by norm_num)
    have h3 := tmod_neg_left x
    omega

/-- Normalize computes exactly the mathematical (Euclidean) remainder mod
100. -/
theorem Normalize_eq_emod (x : Int) : Normalize x = x % 100 := by
  have h := tmod_cases x
  have h1 : 0 ≤ x % 100 := Int.emod_nonneg x (by norm_num)
  have h2 : x % 100 < 100 := Int.emod_lt_of_pos x (by norm_num)
  show (if Int.tmod x 100 < 0 then Int.tmod x 100 + 100 else Int.tmod x 100) = x % 100
  split <;> omega

theorem Normalize_nonneg (x : Int) : 0 ≤ Normalize x := by
  rw [Normalize_eq_emod]
  exact Int.emod_nonneg x (by norm_num)

theorem Normalize_lt (x : Int) : Normalize x < 100 := by
  rw [Normalize_eq_emod]
  exact Int.emod_lt_of_pos x (by norm_num)

/-- wrap64 is the identity exactly on the signed 64-bit range. -/
theorem wrap64_eq_self (x : Int) (h1 : -2 ^ 63 ≤ x) (h2 : x < 2 ^ 63) :
    wrap64 x = x := by
  unfold wrap64
  omega

/-! ### Claim theorems for the day1 dial -/

/-- C1 (amended): for every starting position p in [0, 100) and every
representable rotation distance 0 ≤ d < 2^63, CountZeroCrossings returns:
rotating left from nonzero p, 1 + floor((d − p) / 100) if d ≥ p and 0
otherwise; rotating left from p = 0, floor(d / 100); and, provided the
64-bit sum p + d does not overflow, rotating right from any p,
floor((p + d) / 100).  For p + d ≥ 2^63 the Go sum wraps and the right
formula fails. -/
theorem countZeroCrossings_matches_formula (p d : Int)
    (hp0 : 0 ≤ p) (hp1 : p < 100) (hd : 0 ≤ d) (hd64 : d < 2 ^ 63) :
    (p ≠ 0 →
      Rotation.CountZeroCrossings ⟨.left, d⟩ p =
        if d ≥ p then 1 + Int.fdiv (d - p) 100 else 0)
    ∧ (p = 0 → Rotation.CountZeroCrossings ⟨.left, d⟩ p = Int.fdiv d 100)
    ∧ (p + d < 2 ^ 63 →
        Rotation.CountZeroCrossings ⟨.right, d⟩ p = Int.fdiv (p + d) 100) := by
  refine ⟨?_, ?_, ?_⟩
  · intro hne
    have hz : IsZero p = false := by simp [IsZero, hne]
    simp only [Rotation.CountZeroCrossings, hz, Bool.false_eq_true, if_false]
    by_cases hle : d ≥ p
    · rw [if_pos hle, if_pos hle, wrap64_eq_self (d - p) (by omega) (by omega),
        Int.fdiv_eq_tdiv (by omega) (by norm_num)]
    · rw [if_neg hle, if_neg hle]
  · intro h0
    subst h0
    simp only [Rotation.CountZeroCrossings, IsZero]
    rw [if_pos (by norm_num), Int.fdiv_eq_tdiv hd (by norm_num)]
  · intro hov
    simp only [Rotation.CountZeroCrossings]
    rw [wrap64_eq_self (p + d) (by omega) (by omega),
      Int.fdiv_eq_tdiv (by omega) (by norm_num)]

/-- Witness for C1: the theorem applied at position 30 and distance 170. -/
theorem countZeroCrossings_matches_formula_witness :
    ((30 : Int) ≠ 0 →
      Rotation.CountZeroCrossings ⟨.left, 170⟩ 30 =
        if (170 : Int) ≥ 30 then 1 + Int.fdiv (170 - 30) 100 else 0)
    ∧ ((30 : Int) = 0 → Rotation.CountZeroCrossings ⟨.left, 170⟩ 30 = Int.fdiv 170 100)
    ∧ ((30 : Int) + 170 < 2 ^ 63 →
        Rotation.CountZeroCrossings ⟨.right, 170⟩ 30 = Int.fdiv (30 + 170) 100) :=
  countZeroCrossings_matches_formula 30 170 (by norm_num) (by norm_num) (by norm_num)
    (by norm_num)

/-- Counterexample for C1 as stated: the parseable rotation distance
2^63 − 1 at position 99 makes the Go 64-bit sum wrap, so the right-rotation
crossing count is negative instead of the claimed floor((p + d) / 100). -/
theorem countZeroCrossings_overflow_counterexample :
    ParseRotation ("R9223372036854775807".toList)
      = some { direction := Direction.right, distance := 9223372036854775807 }
    ∧ Rotation.CountZeroCrossings ⟨Direction.right, 9223372036854775807⟩ 99
      = -92233720368547757
    ∧ Int.fdiv (99 + 9223372036854775807) 100 = 92233720368547759
    ∧ Rotation.CountZeroCrossings ⟨Direction.right, 9223372036854775807⟩ 99
      ≠ Int.fdiv (99 + 9223372036854775807) 100 := by
  exact ⟨by decide, by decide, by decide, by decide⟩

/-- C2: the strategy-based CountZeroCrossings and the alternate
countPassesThroughZero agree at every position and distance, in both
directions; in particular they agree on positions 0..99 and distances
0..500. -/
theorem crossings_implementations_agree (p d : Int) :
    Rotation.CountZeroCrossings ⟨.left, d⟩ p = countPassesThroughZero p 'L' d
    ∧ Rotation.CountZeroCrossings ⟨.right, d⟩ p = countPassesThroughZero p 'R' d := by
  have hRL : ('R' : Char) ≠ 'L' := by decide
  constructor
  · simp only [Rotation.CountZeroCrossings, countPassesThroughZero, IsZero]
    norm_num
  · simp only [Rotation.CountZeroCrossings, countPassesThroughZero]
    simp [hRL]

/-- C3 (amended): Apply computes (p − distance) mod 100 for a left rotation
and (p + distance) mod 100 for a right rotation whenever the 64-bit
difference or sum does not overflow, and unconditionally the result is
normalized into [0, 100) even where the Go remainder operator would be
negative.  Under overflow the Go sum wraps and the mod-100 equation fails. -/
theorem apply_normalizes (p : Int) (r : Rotation) :
    ((-2 ^ 63 ≤ (match r.direction with
        | Direction.left => p - r.distance
        | Direction.right => p + r.distance)
      ∧ (match r.direction with
          | Direction.left => p - r.distance
          | Direction.right => p + r.distance) < 2 ^ 63) →
      r.Apply p =
        (match r.direction with
         | Direction.left => p - r.distance
         | Direction.right => p + r.distance) % 100)
    ∧ 0 ≤ r.Apply p ∧ r.Apply p < 100 := by
  obtain ⟨dir, dist⟩ := r
  cases dir with
  | left =>
    refine ⟨?_, Normalize_nonneg _, Normalize_lt _⟩
    intro h
    show Normalize (wrap64 (p - dist)) = (p - dist) % 100
    rw [wrap64_eq_self (p - dist) h.1 h.2, Normalize_eq_emod]
  | right =>
    refine ⟨?_, Normalize_nonneg _, Normalize_lt _⟩
    intro h
    show Normalize (wrap64 (p + dist)) = (p + dist) % 100
    rw [wrap64_eq_self (p + dist) h.1 h.2, Normalize_eq_emod]

/-- Witness for C3: a concrete in-range rotation. -/
theorem apply_normalizes_witness :
    Rotation.Apply ⟨Direction.right, 48⟩ 2 = (2 + 48) % 100
    ∧ 0 ≤ Rotation.Apply ⟨Direction.right, 48⟩ 2
    ∧ Rotation.Apply ⟨Direction.right, 48⟩ 2 < 100 := by
  have h := apply_normalizes 2 ⟨Direction.right, 48⟩
  exact ⟨h.1 (by decide), h.2.1, h.2.2⟩

/-- Counterexample for C3 as stated: with the parseable distance 2^63 − 1
the Go 64-bit sum wraps, so Apply disagrees with the unbounded
(p + distance) mod 100, while still landing in [0, 100). -/
theorem apply_mod_counterexample :
    Rotation.Apply ⟨Direction.right, 9223372036854775807⟩ 2 = 93
    ∧ (2 + 9223372036854775807) % 100 = 9
    ∧ Rotation.Apply ⟨Direction.right, 9223372036854775807⟩ 2
      ≠ (2 + 9223372036854775807) % 100 := by
  exact ⟨by decide, by decide, by decide⟩

/-- The streaming dial run equals the pipeline fold started from the
matching position and count. -/
theorem dialRunFrom_eq_pairs (c : Counter) (rs : List Rotation) :
    ∀ (d : Dial),
      dialRunFrom c d rs =
        { position :=
            (rs.foldl (fun s r => (r.Apply s.1, wrap64 (s.2 + c.Count r s.1)))
              (d.position, d.count)).1,
          count :=
            (rs.foldl (fun s r => (r.Apply s.1, wrap64 (s.2 + c.Count r s.1)))
              (d.position, d.count)).2 } := by
  induction rs with
  | nil => intro d; rfl
  | cons r rs ih =>
    intro d
    have h1 : dialRunFrom c d (r :: rs) = dialRunFrom c (Dial.Rotate c d r) rs := rfl
    rw [h1, ih (Dial.Rotate c d r)]
    rfl

/-- C10: for every counting strategy and rotation list, the streaming path (a
dial created at position 50 with count 0, rotated through the list, then
read) produces the same count as the pipeline reduction started at position
50 with the same counter. -/
theorem solve_eq_reduce (c : Counter) (rs : List Rotation) :
    Solve c rs = Reduce rs 50 c := by
  show (dialRunFrom c NewDial rs).count = Reduce rs 50 c
  rw [dialRunFrom_eq_pairs c rs NewDial]
  rfl

/-- Every step contribution is nonnegative once the position is in range,
the distance is nonnegative, and the position-plus-distance sum does not
overflow the signed 64-bit range. -/
theorem count_contribution_nonneg (c : Counter) (r : Rotation) (p : Int)
    (hp0 : 0 ≤ p) (hp1 : p < 100) (hd : 0 ≤ r.distance)
    (hsum : p + r.distance < 2 ^ 63) : 0 ≤ c.Count r p := by
  obtain ⟨dir, dist⟩ := r
  have hd2 : 0 ≤ dist := hd
  have hsum2 : p + dist < 2 ^ 63 := hsum
  cases c with
  | endPosition =>
    simp only [Counter.Count]
    split <;> norm_num
  | zeroCrossing =>
    simp only [Counter.Count]
    cases dir with
    | left =>
      simp only [Rotation.CountZeroCrossings]
      by_cases h0 : IsZero p
      · rw [if_pos h0]
        exact Int.tdiv_nonneg hd2 (by norm_num)
      · rw [if_neg h0]
        by_cases hge : dist ≥ p
        · rw [if_pos hge, wrap64_eq_self (dist - p) (by omega) (by omega)]
          have : (0 : Int) ≤ Int.tdiv (dist - p) 100 :=
            Int.tdiv_nonneg (by omega) (by norm_num)
          omega
        · rw [if_neg hge]
    | right =>
      simp only [Rotation.CountZeroCrossings]
      rw [wrap64_eq_self (p + dist) (by omega) (by omega)]
      exact Int.tdiv_nonneg (by omega) (by norm_num)

/-- C7 (amended): a Rotate call does not decrease the count, for either
strategy, provided the pre-call position is in [0, 100), the pre-call count
is a valid 64-bit value, the rotation distance is nonnegative, and neither
the position-plus-distance sum used by the crossing count nor the count
update overflows the signed 64-bit range.  Parsed rotations with negative
distances, or 64-bit overflow at distances near 2^63, can make the count
decrease. -/
theorem dial_count_monotone (c : Counter) (r : Rotation) (s : Dial)
    (hp0 : 0 ≤ s.position) (hp1 : s.position < 100)
    (hd : 0 ≤ r.distance)
    (hsum : s.position + r.distance < 2 ^ 63)
    (hcnt : -2 ^ 63 ≤ s.count)
    (hupd : s.count + c.Count r s.position < 2 ^ 63) :
    s.count ≤ (Dial.Rotate c s r).count := by
  have hnn : 0 ≤ c.Count r s.position :=
    count_contribution_nonneg c r s.position hp0 hp1 hd hsum
  show s.count ≤ wrap64 (s.count + c.Count r s.position)
  rw [wrap64_eq_self (s.count + c.Count r s.position) (by omega) hupd]
  omega

/-- Witness for C7 (amended): one concrete in-range Rotate call. -/
theorem dial_count_monotone_witness :
    NewDial.count ≤ (Dial.Rotate Counter.zeroCrossing NewDial
      { direction := Direction.left, distance := 50 }).count :=
  dial_count_monotone Counter.zeroCrossing
    { direction := Direction.left, distance := 50 } NewDial
    (by decide) (by decide) (by decide) (by decide) (by decide) (by decide)

/-- Counterexample for C7 as stated: the line L-250 parses, and with the zero
crossing strategy its contribution at position 0 is negative, so after the
parsed sequence L50, L-250 the count strictly decreases on the second
Rotate. -/
theorem dial_count_monotone_counterexample :
    ParseRotation ("L-250".toList) = some { direction := Direction.left, distance := -250 }
    ∧ (Dial.Rotate Counter.zeroCrossing
        (Dial.Rotate Counter.zeroCrossing NewDial { direction := Direction.left, distance := 50 })
        { direction := Direction.left, distance := -250 }).count
      < (Dial.Rotate Counter.zeroCrossing NewDial
          { direction := Direction.left, distance := 50 }).count := by
  exact ⟨by decide, by decide⟩

/-! ### Claim theorems for the day1 parser -/

/-- The unsigned numeral branch of atoi succeeds exactly on in-range
nonempty digit strings. -/
theorem atoi_branch_lt (x : List Char) :
    (match parseDigits x with
     | some n => if n < 2 ^ 63 then some ((n : Int)) else none
     | none => none).isSome =
      (!x.isEmpty && x.all Char.isDigit && decide (digitsToNat x < 2 ^ 63)) := by
  unfold parseDigits
  by_cases hp : x ≠ [] ∧ x.all Char.isDigit = true
  · rw [if_pos hp]
    have hne2 : x.isEmpty = false := by
      cases x with
      | nil => exact absurd rfl hp.1
      | cons a tl => rfl
    simp only [hne2, hp.2, Bool.not_false, Bool.true_and, Bool.and_true]
    by_cases hle : digitsToNat x < 2 ^ 63
    · rw [if_pos hle, decide_eq_true hle]
      rfl
    · rw [if_neg hle, decide_eq_false hle]
      rfl
  · rw [if_neg hp]
    rcases not_and_or.1 hp with h1 | h2
    · have hx : x = [] := not_not.mp h1
      subst hx
      simp
    · have hx : x.all Char.isDigit = false := by
        revert h2
        cases x.all Char.isDigit <;> simp
      simp [hx]

/-- The negative numeral branch of atoi succeeds exactly on in-range
nonempty digit strings. -/
theorem atoi_branch_le (x : List Char) :
    (match parseDigits x with
     | some n => if n ≤ 2 ^ 63 then some (-(n : Int)) else none
     | none => none).isSome =
      (!x.isEmpty && x.all Char.isDigit && decide (digitsToNat x ≤ 2 ^ 63)) := by
  unfold parseDigits
  by_cases hp : x ≠ [] ∧ x.all Char.isDigit = true
  · rw [if_pos hp]
    have hne2 : x.isEmpty = false := by
      cases x with
      | nil => exact absurd rfl hp.1
      | cons a tl => rfl
    simp only [hne2, hp.2, Bool.not_false, Bool.true_and, Bool.and_true]
    by_cases hle : digitsToNat x ≤ 2 ^ 63
    · rw [if_pos hle, decide_eq_true hle]
      rfl
    · rw [if_neg hle, decide_eq_false hle]
      rfl
  · rw [if_neg hp]
    rcases not_and_or.1 hp with h1 | h2
    · have hx : x = [] := not_not.mp h1
      subst hx
      simp
    · have hx : x.all Char.isDigit = false := by
        revert h2
        cases x.all Char.isDigit <;> simp
      simp [hx]

/-- Atoi succeeds exactly on the optionally signed numerals of the amended
grammar. -/
theorem atoi_isSome_eq_intToken (l : List Char) : (atoi l).isSome = intToken l := by
  cases l with
  | nil => decide
  | cons c tl =>
    by_cases hm : c = '-'
    · subst hm
      rw [show atoi ('-' :: tl) =
            (match parseDigits (List.drop 1 ('-' :: tl)) with
             | some n => if n ≤ 2 ^ 63 then some (-(n : Int)) else none
             | none => none) from by
          unfold atoi
          rw [if_pos (by simp)]]
      simp only [List.drop_succ_cons, List.drop_zero, atoi_branch_le]
      simp [intToken]
    · by_cases hq : c = '+'
      · subst hq
        rw [show atoi ('+' :: tl) =
              (match parseDigits (List.drop 1 ('+' :: tl)) with
               | some n => if n < 2 ^ 63 then some ((n : Int)) else none
               | none => none) from by
            unfold atoi
            rw [if_neg (by simp), if_pos (by simp)]]
        simp only [List.drop_succ_cons, List.drop_zero, atoi_branch_lt]
        simp [intToken]
      · rw [show atoi (c :: tl) =
              (match parseDigits (c :: tl) with
               | some n => if n < 2 ^ 63 then some ((n : Int)) else none
               | none => none) from by
            unfold atoi
            rw [if_neg (by simp [hm]), if_neg (by simp [hq])]]
        rw [atoi_branch_lt]
        have hmb : (c == '-') = false := beq_eq_false_iff_ne.mpr hm
        have hqb : (c == '+') = false := beq_eq_false_iff_ne.mpr hq
        simp [intToken, hmb, hqb]

/-- ParseRotation succeeds exactly on trimmed lines matching the amended
token grammar. -/
theorem parseRotation_isSome_eq_token (s : List Char) :
    (ParseRotation s).isSome = matchesRotationToken (trimSpace s) := by
  simp only [ParseRotation, matchesRotationToken]
  generalize trimSpace s = t
  by_cases hlen : t.length < 2
  · rw [if_pos hlen]
    cases t with
    | nil => simp
    | cons c tl =>
      cases tl with
      | nil =>
        have hd : intToken [] = false := by decide
        simp [hd]
      | cons c2 tl2 =>
        exfalso
        simp [List.length_cons] at hlen
        omega
  · rw [if_neg hlen]
    by_cases hL : t.head? = some 'L'
    · rw [if_pos hL]
      simp [hL, atoi_isSome_eq_intToken]
    · rw [if_neg hL]
      by_cases hR : t.head? = some 'R'
      · rw [if_pos hR]
        simp [hR, hL, atoi_isSome_eq_intToken]
      · rw [if_neg hR]
        have hLb : (t.head? == some 'L') = false := beq_eq_false_iff_ne.mpr hL
        have hRb : (t.head? == some 'R') = false := beq_eq_false_iff_ne.mpr hR
        simp [hLb, hRb]

/-- A failing nonblank line aborts the whole parse with its 1-based line
number, counted from the given start. -/
theorem parseAllLines_error_at (pre : List (List Char)) :
    ∀ (n : Nat) (l : List Char) (post : List (List Char)),
      (∀ l2 ∈ pre, l2 = [] ∨ (ParseRotation l2).isSome) →
      l ≠ [] → ParseRotation l = none →
      ParseAllLines (pre ++ l :: post) n = .error (n + pre.length) := by
  induction pre with
  | nil =>
    intro n l post _ hne hfail
    simp only [List.nil_append, ParseAllLines, if_neg hne, hfail]
    simp
  | cons p pre ih =>
    intro n l post hok hne hfail
    have hp := hok p (List.mem_cons_self p pre)
    have hrest : ∀ l2 ∈ pre, l2 = [] ∨ (ParseRotation l2).isSome :=
      fun l2 h2 => hok l2 (List.mem_cons_of_mem p h2)
    rcases hp with hblank | hsome
    · subst hblank
      show ParseAllLines (([] : List Char) :: (pre ++ l :: post)) n = _
      rw [show ParseAllLines (([] : List Char) :: (pre ++ l :: post)) n =
            ParseAllLines (pre ++ l :: post) (n + 1) from by
          simp [ParseAllLines]]
      rw [ih (n + 1) l post hrest hne hfail]
      congr 1
      simp
      omega
    · obtain ⟨r, hr⟩ := Option.isSome_iff_exists.1 hsome
      have hpne : p ≠ [] := by
        intro hcon
        subst hcon
        have : ParseRotation ([] : List Char) = none := by decide
        rw [this] at hr
        exact Option.noConfusion hr
      show ParseAllLines (p :: (pre ++ l :: post)) n = _
      rw [show ParseAllLines (p :: (pre ++ l :: post)) n =
            match ParseRotation p with
            | none => .error n
            | some r =>
              match ParseAllLines (pre ++ l :: post) (n + 1) with
              | .ok rs => .ok (r :: rs)
              | .error e => .error e from by
          simp [ParseAllLines, hpne]]
      rw [hr, ih (n + 1) l post hrest hne hfail]
      simp
      omega

/-- C6 (amended): a rotation line parses successfully exactly when, after
trimming, it matches the token grammar of a direction character L or R
followed by an optionally signed decimal numeral fitting a signed 64-bit
integer (so a parsed Distance may be negative), and any line that does not
match makes the whole file parse fail with the 1-based number of the first
such line. -/
theorem parse_grammar_and_abort :
    (∀ s : List Char, (ParseRotation s).isSome = matchesRotationToken (trimSpace s))
    ∧ (∀ (pre : List (List Char)) (l : List Char) (post : List (List Char)),
        (∀ l2 ∈ pre, l2 = [] ∨ (ParseRotation l2).isSome) →
        l ≠ [] → ParseRotation l = none →
        ParseAll (pre ++ l :: post) = .error (pre.length + 1)) := by
  refine ⟨parseRotation_isSome_eq_token, ?_⟩
  intro pre l post hok hne hfail
  rw [ParseAll, parseAllLines_error_at pre 1 l post hok hne hfail]
  congr 1
  omega

/-- Witness for C6 (amended): the grammar test on a concrete line, and a
concrete three-line file whose third line fails, aborting with line number
3. -/
theorem parse_grammar_and_abort_witness :
    ((ParseRotation ("R48".toList)).isSome = matchesRotationToken (trimSpace "R48".toList))
    ∧ ParseAll (["L1".toList, [], "X10".toList]) = .error 3 := by
  refine ⟨parse_grammar_and_abort.1 ("R48".toList), ?_⟩
  have h := parse_grammar_and_abort.2 ["L1".toList, []] ("X10".toList) []
    (by decide) (by decide) (by decide)
  simpa using h

/-- Counterexample for C6 as stated: the line L-5 does not match the grammar
of a direction followed by a nonnegative integer, yet ParseRotation accepts
it and returns a Rotation whose Distance is negative. -/
theorem parse_nonneg_counterexample :
    ParseRotation ("L-5".toList) = some { direction := Direction.left, distance := -5 }
    ∧ ¬ (0 ≤ ({ direction := Direction.left, distance := -5 } : Rotation).distance) := by
  exact ⟨by decide, by decide⟩

/-! ### List index lemmas for the day4 grid -/

/-- Reading past the end of a list yields the default. -/
theorem getD_of_length_le {α : Type} :
    ∀ (l : List α) (i : Nat) (d : α), l.length ≤ i → l.getD i d = d := by
  intro l
  induction l with
  | nil => intro i d _; cases i <;> rfl
  | cons a tl ih =>
    intro i d h
    cases i with
    | zero => simp at h
    | succ j =>
      rw [List.getD_cons_succ]
      exact ih j d (by simpa using h)

/-- Reading a list after a write: the written value at the written in-range
index, the old value elsewhere. -/
theorem getD_set_ite {α : Type} :
    ∀ (l : List α) (i j : Nat) (v d : α),
      (l.set i v).getD j d = if i = j ∧ j < l.length then v else l.getD j d := by
  intro l
  induction l with
  | nil =>
    intro i j v d
    rw [if_neg (by simp)]
    rfl
  | cons a tl ih =>
    intro i j v d
    cases i with
    | zero =>
      cases j with
      | zero => simp
      | succ j2 =>
        rw [List.set_cons_zero, List.getD_cons_succ, List.getD_cons_succ,
          if_neg (by omega)]
    | succ i2 =>
      cases j with
      | zero =>
        rw [List.set_cons_succ, List.getD_cons_zero, List.getD_cons_zero,
          if_neg (by omega)]
      | succ j2 =>
        rw [List.set_cons_succ, List.getD_cons_succ, List.getD_cons_succ, ih]
        have hiff : (i2 = j2 ∧ j2 < tl.length) ↔
            (i2 + 1 = j2 + 1 ∧ j2 + 1 < (a :: tl).length) := by
          rw [List.length_cons]
          omega
        rw [if_congr hiff rfl rfl]

/-- Reading any cell after writing the empty cell at one position: the
written position reads empty, everything else is unchanged (an out-of-range
target also reads empty by default). -/
theorem cellAt_setCell (g : Grid) (a b r c : Nat) :
    cellAt (setCell g a b '.') r c = if a = r ∧ b = c then '.' else cellAt g r c := by
  unfold cellAt setCell rowAt
  rw [getD_set_ite]
  by_cases h1 : a = r ∧ r < g.length
  · rw [if_pos h1]
    obtain ⟨rfl, hrlen⟩ := h1
    rw [getD_set_ite]
    by_cases h2 : b = c ∧ c < (g.getD a []).length
    · rw [if_pos h2, if_pos ⟨rfl, h2.1⟩]
    · rw [if_neg h2]
      by_cases h3 : b = c
      · have hc : (g.getD a []).length ≤ c := by
          rcases not_and_or.1 h2 with hx | hx
          · exact absurd h3 hx
          · omega
        rw [if_pos ⟨rfl, h3⟩, getD_of_length_le _ _ _ hc]
      · rw [if_neg (fun hcon => h3 hcon.2)]
  · rw [if_neg h1]
    by_cases h4 : a = r
    · have hlen : g.length ≤ r := by
        rcases not_and_or.1 h1 with hx | hx
        · exact absurd h4 hx
        · omega
      have hrow : g.getD r [] = [] := getD_of_length_le g r [] hlen
      by_cases h5 : b = c
      · rw [if_pos ⟨h4, h5⟩, hrow]
        exact getD_of_length_le _ _ _ (by simp)
      · rw [if_neg (fun hcon => h5 hcon.2)]
    · rw [if_neg (fun hcon => h4 hcon.1)]

/-- Reading any cell after a batch removal: removed positions read empty,
everything else is unchanged. -/
theorem cellAt_removeAll :
    ∀ (ps : List (Nat × Nat)) (g : Grid) (r c : Nat),
      cellAt (removeAll g ps) r c = if (r, c) ∈ ps then '.' else cellAt g r c := by
  intro ps
  induction ps with
  | nil =>
    intro g r c
    rw [if_neg (by simp)]
    rfl
  | cons p tl ih =>
    intro g r c
    have hstep : removeAll g (p :: tl) = removeAll (setCell g p.1 p.2 '.') tl := rfl
    rw [hstep, ih, cellAt_setCell]
    by_cases hmem : (r, c) ∈ tl
    · rw [if_pos hmem, if_pos (List.mem_cons_of_mem p hmem)]
    · rw [if_neg hmem]
      by_cases hp : p.1 = r ∧ p.2 = c
      · have : p = (r, c) := by
          obtain ⟨x, y⟩ := p
          simpa [Prod.ext_iff] using hp
        rw [if_pos hp, if_pos (by rw [this]; exact List.mem_cons_self _ _)]
      · rw [if_neg hp, if_neg]
        intro hcon
        rcases List.mem_cons.1 hcon with hc1 | hc2
        · exact hp (by rw [← hc1]; exact ⟨rfl, rfl⟩)
        · exact hmem hc2

/-- Membership in the accessible scan: exactly the in-bounds marker cells
whose neighbor count is below 4. -/
theorem mem_findAccessibleRolls (g : Grid) (r c : Nat) :
    (r, c) ∈ findAccessibleRolls g ↔
      r < g.length ∧ c < (rowAt g r).length ∧ cellAt g r c = '@'
        ∧ isAccessibleMutable g (r : Int) (c : Int) = true := by
  unfold findAccessibleRolls
  simp only [List.mem_flatMap, List.mem_filterMap, List.mem_range]
  constructor
  · rintro ⟨row, hrow, col, hcol, hif⟩
    by_cases hcond : cellAt g row col = '@' ∧ isAccessibleMutable g (row : Int) (col : Int) = true
    · rw [if_pos hcond] at hif
      have heq : row = r ∧ col = c := by simpa using hif
      obtain ⟨he1, he2⟩ := heq
      subst he1
      subst he2
      exact ⟨hrow, hcol, hcond.1, hcond.2⟩
    · rw [if_neg hcond] at hif
      exact Option.noConfusion hif
  · rintro ⟨h1, h2, h3, h4⟩
    refine ⟨r, h1, c, h2, ?_⟩
    rw [if_pos ⟨h3, h4⟩]

/-- C4: in every pass of the day4 Part 2 reduction loop, a cell is cleared
exactly when it held a marker with fewer than 4 live neighbors in the grid
state at the end of the previous pass; all other cells are unchanged, so
clearing is simultaneous and deferred to the end of the scan. -/
theorem pass_clears_simultaneously (g : Grid) (k r c : Nat) :
    cellAt (gridAfterPasses g (k + 1)) r c =
      if cellAt (gridAfterPasses g k) r c = '@'
          ∧ adjacentCount (gridAfterPasses g k) (r : Int) (c : Int) < 4 then '.'
      else cellAt (gridAfterPasses g k) r c := by
  have hstep : gridAfterPasses g (k + 1) = passGrid (gridAfterPasses g k) := rfl
  rw [hstep]
  generalize gridAfterPasses g k = G
  rw [passGrid, cellAt_removeAll]
  by_cases hmem : (r, c) ∈ findAccessibleRolls G
  · obtain ⟨hb1, hb2, hcell, hacc⟩ := (mem_findAccessibleRolls G r c).1 hmem
    rw [if_pos hmem, if_pos ⟨hcell, by
      have := hacc
      unfold isAccessibleMutable at this
      exact of_decide_eq_true this⟩]
  · rw [if_neg hmem, if_neg]
    intro hcon
    apply hmem
    refine (mem_findAccessibleRolls G r c).2 ⟨?_, ?_, hcon.1, ?_⟩
    · by_contra hx
      have hdot : cellAt G r c = '.' := by
        unfold cellAt rowAt
        rw [getD_of_length_le G r [] (by omega)]
        exact getD_of_length_le _ _ _ (by simp)
      rw [hdot] at hcon
      exact absurd hcon.1 (by decide)
    · by_contra hx
      have hdot : cellAt G r c = '.' := by
        unfold cellAt
        exact getD_of_length_le _ _ _ (by omega)
      rw [hdot] at hcon
      exact absurd hcon.1 (by decide)
    · unfold isAccessibleMutable
      exact decide_eq_true hcon.2

/-! ### Marker counting and termination of the day4 loop -/

/-- A default read is either a member of the list or the default itself. -/
theorem getD_mem_or {α : Type} :
    ∀ (l : List α) (i : Nat) (d : α), l.getD i d ∈ l ∨ l.getD i d = d := by
  intro l
  induction l with
  | nil =>
    intro i d
    right
    cases i <;> rfl
  | cons a tl ih =>
    intro i d
    cases i with
    | zero =>
      left
      rw [List.getD_cons_zero]
      exact List.mem_cons_self a tl
    | succ j =>
      rw [List.getD_cons_succ]
      rcases ih j d with h | h
      · exact Or.inl (List.mem_cons_of_mem a h)
      · exact Or.inr h

/-- Overwriting a cell with the empty marker never increases a row count. -/
theorem count_set_le :
    ∀ (l : List Char) (i : Nat), (l.set i '.').count '@' ≤ l.count '@' := by
  intro l
  induction l with
  | nil => intro i; exact Nat.le_refl _
  | cons a tl ih =>
    intro i
    cases i with
    | zero =>
      rw [List.set_cons_zero, List.count_cons, List.count_cons]
      have hd : (('.' : Char) == '@') = false := by decide
      rw [hd]
      cases ha : (a == '@') <;> simp [ha]
    | succ j =>
      rw [List.set_cons_succ, List.count_cons, List.count_cons]
      have := ih j
      cases ha : (a == '@') <;> simp [ha] <;> omega

/-- Overwriting a marker with the empty cell strictly decreases the row
count. -/
theorem count_set_lt :
    ∀ (l : List Char) (i : Nat), i < l.length → l.getD i '.' = '@' →
      (l.set i '.').count '@' < l.count '@' := by
  intro l
  induction l with
  | nil => intro i h _; simp at h
  | cons a tl ih =>
    intro i hi hv
    cases i with
    | zero =>
      have ha : a = '@' := hv
      rw [List.set_cons_zero, List.count_cons, List.count_cons, ha]
      have hd : (('.' : Char) == '@') = false := by decide
      have hq : (('@' : Char) == '@') = true := by decide
      rw [hd, hq]
      simp
    | succ j =>
      rw [List.set_cons_succ, List.count_cons, List.count_cons]
      have := ih j (by simpa using hi) hv
      cases ha : (a == '@') <;> simp [ha] <;> omega

/-- The marker count of a nonempty grid splits on the first row. -/
theorem markerCount_cons (row : List Char) (tl : Grid) :
    markerCount (row :: tl) = row.count '@' + markerCount tl := by
  simp [markerCount]

/-- Clearing one cell never increases the marker count. -/
theorem markerCount_setCell_le :
    ∀ (g : Grid) (a b : Nat), markerCount (setCell g a b '.') ≤ markerCount g := by
  intro g
  induction g with
  | nil => intro a b; exact Nat.le_refl _
  | cons row tl ih =>
    intro a b
    cases a with
    | zero =>
      show markerCount ((row.set b '.') :: tl) ≤ markerCount (row :: tl)
      rw [markerCount_cons, markerCount_cons]
      have := count_set_le row b
      omega
    | succ a2 =>
      show markerCount (row :: setCell tl a2 b '.') ≤ markerCount (row :: tl)
      rw [markerCount_cons, markerCount_cons]
      have := ih a2 b
      omega

/-- Clearing an in-bounds marker strictly decreases the marker count. -/
theorem markerCount_setCell_lt :
    ∀ (g : Grid) (a b : Nat), a < g.length → b < (rowAt g a).length →
      cellAt g a b = '@' → markerCount (setCell g a b '.') < markerCount g := by
  intro g
  induction g with
  | nil => intro a b h _ _; simp at h
  | cons row tl ih =>
    intro a b ha hb hc
    cases a with
    | zero =>
      show markerCount ((row.set b '.') :: tl) < markerCount (row :: tl)
      rw [markerCount_cons, markerCount_cons]
      have := count_set_lt row b (by exact hb) (by exact hc)
      omega
    | succ a2 =>
      show markerCount (row :: setCell tl a2 b '.') < markerCount (row :: tl)
      rw [markerCount_cons, markerCount_cons]
      have := ih a2 b (by simpa using ha) (by exact hb) (by exact hc)
      omega

/-- Batch removal never increases the marker count. -/
theorem markerCount_removeAll_le :
    ∀ (ps : List (Nat × Nat)) (g : Grid), markerCount (removeAll g ps) ≤ markerCount g := by
  intro ps
  induction ps with
  | nil => intro g; exact Nat.le_refl _
  | cons p tl ih =>
    intro g
    have hstep : removeAll g (p :: tl) = removeAll (setCell g p.1 p.2 '.') tl := rfl
    rw [hstep]
    exact Nat.le_trans (ih (setCell g p.1 p.2 '.')) (markerCount_setCell_le g p.1 p.2)

/-- A pass that found at least one accessible roll strictly decreases the
marker count. -/
theorem markerCount_pass_lt (g : Grid) (h : findAccessibleRolls g ≠ []) :
    markerCount (passGrid g) < markerCount g := by
  unfold passGrid
  cases hacc : findAccessibleRolls g with
  | nil => exact absurd hacc h
  | cons p tl =>
    obtain ⟨pr, pc⟩ := p
    have hmem : (pr, pc) ∈ findAccessibleRolls g := by
      rw [hacc]
      exact List.mem_cons_self _ _
    obtain ⟨hb1, hb2, hcell, _⟩ := (mem_findAccessibleRolls g pr pc).1 hmem
    have hstep : removeAll g ((pr, pc) :: tl) = removeAll (setCell g pr pc '.') tl := rfl
    rw [hstep]
    exact Nat.lt_of_le_of_lt (markerCount_removeAll_le tl _)
      (markerCount_setCell_lt g pr pc hb1 hb2 hcell)

/-- A grid with a marker cell has positive marker count. -/
theorem markerCount_pos_of_cell :
    ∀ (g : Grid) (r c : Nat), cellAt g r c = '@' → 0 < markerCount g := by
  intro g
  induction g with
  | nil =>
    intro r c h
    have hdot : cellAt ([] : Grid) r c = '.' := by
      unfold cellAt rowAt
      rw [getD_of_length_le ([] : Grid) r [] (by simp)]
      exact getD_of_length_le _ _ _ (by simp)
    rw [h] at hdot
    exact absurd hdot (by decide)
  | cons row tl ih =>
    intro r c h
    cases r with
    | zero =>
      have h2 : row.getD c '.' = '@' := h
      have hmem : '@' ∈ row := by
        rcases getD_mem_or row c '.' with hm | hd
        · rw [h2] at hm
          exact hm
        · rw [h2] at hd
          exact absurd hd (by decide)
      have := List.count_pos_iff.2 hmem
      rw [markerCount_cons]
      omega
    | succ r2 =>
      have h2 : cellAt tl r2 c = '@' := h
      have := ih r2 c h2
      rw [markerCount_cons]
      omega

/-- A nonempty accessible set implies a positive marker count. -/
theorem markerCount_pos_of_acc (g : Grid) (h : findAccessibleRolls g ≠ []) :
    0 < markerCount g := by
  cases hacc : findAccessibleRolls g with
  | nil => exact absurd hacc h
  | cons p tl =>
    obtain ⟨pr, pc⟩ := p
    have hmem : (pr, pc) ∈ findAccessibleRolls g := by
      rw [hacc]
      exact List.mem_cons_self _ _
    obtain ⟨_, _, hcell, _⟩ := (mem_findAccessibleRolls g pr pc).1 hmem
    exact markerCount_pos_of_cell g pr pc hcell

/-- One-step unfolding of the fuelled loop. -/
theorem reduceLoopFuel_succ (f : Nat) (g : Grid) :
    reduceLoopFuel (f + 1) g =
      if (findAccessibleRolls g).isEmpty then (0, 0, g)
      else
        ((findAccessibleRolls g).length
            + (reduceLoopFuel f (removeAll g (findAccessibleRolls g))).1,
          (reduceLoopFuel f (removeAll g (findAccessibleRolls g))).2.1 + 1,
          (reduceLoopFuel f (removeAll g (findAccessibleRolls g))).2.2) := rfl

/-- The loop result does not depend on the fuel, once the fuel exceeds the
marker count. -/
theorem reduceLoopFuel_congr :
    ∀ (f1 : Nat) (g : Grid) (f2 : Nat), markerCount g < f1 → markerCount g < f2 →
      reduceLoopFuel f1 g = reduceLoopFuel f2 g := by
  intro f1
  induction f1 with
  | zero => intro g f2 h1 _; omega
  | succ f ih =>
    intro g f2 h1 h2
    cases f2 with
    | zero => omega
    | succ f2b =>
      rw [reduceLoopFuel_succ, reduceLoopFuel_succ]
      cases hacc : (findAccessibleRolls g).isEmpty with
      | true => rfl
      | false =>
        have hne : findAccessibleRolls g ≠ [] := by
          intro hcon
          rw [hcon] at hacc
          simp at hacc
        have hlt : markerCount (removeAll g (findAccessibleRolls g)) < markerCount g := by
          have := markerCount_pass_lt g hne
          unfold passGrid at this
          exact this
        simp only [Bool.false_eq_true, if_false]
        rw [ih (removeAll g (findAccessibleRolls g)) f2b (by omega) (by omega)]

/-- The one-step unfolding of the unbounded loop. -/
theorem reduceLoop_unfold (g : Grid) :
    reduceLoop g =
      if (findAccessibleRolls g).isEmpty then (0, 0, g)
      else
        ((findAccessibleRolls g).length + (reduceLoop (removeAll g (findAccessibleRolls g))).1,
          (reduceLoop (removeAll g (findAccessibleRolls g))).2.1 + 1,
          (reduceLoop (removeAll g (findAccessibleRolls g))).2.2) := by
  have hL : reduceLoop g = reduceLoopFuel (markerCount g + 1) g := rfl
  rw [hL, reduceLoopFuel_succ]
  cases hacc : (findAccessibleRolls g).isEmpty with
  | true => rfl
  | false =>
    have hne : findAccessibleRolls g ≠ [] := by
      intro hcon
      rw [hcon] at hacc
      simp at hacc
    have hlt : markerCount (removeAll g (findAccessibleRolls g)) < markerCount g := by
      have := markerCount_pass_lt g hne
      unfold passGrid at this
      exact this
    simp only [Bool.false_eq_true, if_false]
    rw [reduceLoopFuel_congr (markerCount g) (removeAll g (findAccessibleRolls g))
      (markerCount (removeAll g (findAccessibleRolls g)) + 1) hlt (by omega)]
    rfl

/-- The pass count of a run never exceeds the marker count. -/
theorem reduceLoop_passes_le :
    ∀ (n : Nat) (g : Grid), markerCount g ≤ n → (reduceLoop g).2.1 ≤ markerCount g := by
  intro n
  induction n with
  | zero =>
    intro g hg
    cases hacc : (findAccessibleRolls g).isEmpty with
    | true =>
      rw [reduceLoop_unfold, hacc]
      simp
    | false =>
      exfalso
      have hne : findAccessibleRolls g ≠ [] := by
        intro hcon
        rw [hcon] at hacc
        simp at hacc
      have := markerCount_pos_of_acc g hne
      omega
  | succ n ih =>
    intro g hg
    cases hacc : (findAccessibleRolls g).isEmpty with
    | true =>
      rw [reduceLoop_unfold, hacc]
      simp
    | false =>
      have hne : findAccessibleRolls g ≠ [] := by
        intro hcon
        rw [hcon] at hacc
        simp at hacc
      have hlt := markerCount_pass_lt g hne
      unfold passGrid at hlt
      rw [reduceLoop_unfold, hacc]
      have := ih (removeAll g (findAccessibleRolls g)) (by omega)
      simp only [Bool.false_eq_true, if_false]
      omega

/-- The final grid of a run has no accessible rolls. -/
theorem reduceLoop_final_fixed :
    ∀ (n : Nat) (g : Grid), markerCount g ≤ n →
      findAccessibleRolls (reduceLoop g).2.2 = [] := by
  intro n
  induction n with
  | zero =>
    intro g hg
    cases hacc : (findAccessibleRolls g).isEmpty with
    | true =>
      rw [reduceLoop_unfold, hacc]
      simpa [List.isEmpty_iff] using hacc
    | false =>
      exfalso
      have hne : findAccessibleRolls g ≠ [] := by
        intro hcon
        rw [hcon] at hacc
        simp at hacc
      have := markerCount_pos_of_acc g hne
      omega
  | succ n ih =>
    intro g hg
    cases hacc : (findAccessibleRolls g).isEmpty with
    | true =>
      rw [reduceLoop_unfold, hacc]
      simpa [List.isEmpty_iff] using hacc
    | false =>
      have hne : findAccessibleRolls g ≠ [] := by
        intro hcon
        rw [hcon] at hacc
        simp at hacc
      have hlt := markerCount_pass_lt g hne
      unfold passGrid at hlt
      rw [reduceLoop_unfold, hacc]
      simp only [Bool.false_eq_true, if_false]
      exact ih (removeAll g (findAccessibleRolls g)) (by omega)

/-- C5: the day4 Part 2 reduction loop terminates: a pass that proceeds
removes at least one marker and strictly decreases the marker count, and
the number of executed passes is at most the number of markers in the
initial grid. -/
theorem reducer_terminates (g : Grid) :
    (reduceLoop g).2.1 ≤ markerCount g
    ∧ (findAccessibleRolls g ≠ [] →
        1 ≤ (findAccessibleRolls g).length ∧ markerCount (passGrid g) < markerCount g) :=
  ⟨reduceLoop_passes_le (markerCount g) g (Nat.le_refl _),
    fun hne => ⟨List.length_pos.2 hne, markerCount_pass_lt g hne⟩⟩

/-- Witness for C5: the single-marker grid, whose accessible set is
nonempty. -/
theorem reducer_terminates_witness :
    (reduceLoop [['@']]).2.1 ≤ markerCount [['@']]
    ∧ (1 ≤ (findAccessibleRolls [['@']]).length
        ∧ markerCount (passGrid [['@']]) < markerCount [['@']]) :=
  ⟨(reducer_terminates [['@']]).1, (reducer_terminates [['@']]).2 (by decide)⟩

/-- C9: the reducer is idempotent at its fixed point: the final grid of a
completed run has no removable markers, and running the loop again on it
removes 0 additional cells. -/
theorem reducer_idempotent (g : Grid) :
    findAccessibleRolls (reduceLoop g).2.2 = []
    ∧ (reduceLoop ((reduceLoop g).2.2)).1 = 0 := by
  have h1 := reduceLoop_final_fixed (markerCount g) g (Nat.le_refl _)
  refine ⟨h1, ?_⟩
  rw [reduceLoop_unfold ((reduceLoop g).2.2), h1]
  simp

/-- C8: for every grid (rows of any lengths) and in-grid cell, the
accessibility checks of part1 and part2 agree, a neighbor whose indices fail
the bounds guard contributes nothing, and the neighbor count equals the
marker count over only the in-bounds neighbor offsets. -/
theorem accessibility_reads_in_bounds (g : Grid) (row col : Nat)
    (hr : row < g.length) (hc : col < (rowAt g row).length) :
    (∀ d ∈ directions, inB g ((row : Int) + d.1) ((col : Int) + d.2) = false →
      hasRoll g ((row : Int) + d.1) ((col : Int) + d.2) = false)
    ∧ isAccessible g (row : Int) (col : Int) = isAccessibleMutable g (row : Int) (col : Int)
    ∧ adjacentCount g (row : Int) (col : Int) =
        ((directions.filter (fun d => inB g ((row : Int) + d.1) ((col : Int) + d.2))).filter
          (fun d => cellAt g ((row : Int) + d.1).toNat ((col : Int) + d.2).toNat == '@')).length := by
  refine ⟨?_, rfl, ?_⟩
  · intro d _ h
    unfold hasRoll
    rw [h]
    rfl
  · unfold adjacentCount
    rw [List.filter_filter]
    apply congrArg List.length
    apply List.filter_congr
    intro d _
    unfold hasRoll
    exact Bool.and_comm _ _

/-- Witness for C8: a concrete ragged grid and its top-left cell. -/
theorem accessibility_reads_in_bounds_witness :
    (∀ d ∈ directions,
      inB [['@', '@'], ['@']] ((0 : Int) + d.1) ((0 : Int) + d.2) = false →
      hasRoll [['@', '@'], ['@']] ((0 : Int) + d.1) ((0 : Int) + d.2) = false)
    ∧ isAccessible [['@', '@'], ['@']] (0 : Int) (0 : Int)
        = isAccessibleMutable [['@', '@'], ['@']] (0 : Int) (0 : Int)
    ∧ adjacentCount [['@', '@'], ['@']] (0 : Int) (0 : Int) =
        ((directions.filter
            (fun d => inB [['@', '@'], ['@']] ((0 : Int) + d.1) ((0 : Int) + d.2))).filter
          (fun d => cellAt [['@', '@'], ['@']]
            ((0 : Int) + d.1).toNat ((0 : Int) + d.2).toNat == '@')).length :=
  accessibility_reads_in_bounds [['@', '@'], ['@']] 0 0 (by decide) (by decide)

end Adv2025
